import Mathlib

/-!
Shallow embedding of inv-checker.py (a CS:GO inventory checker): the
RateLimiter, PriceCache and SteamMarketAPI request layer, with theorems
checking the specification's claims about pacing, backoff, caching,
pagination and price lookup.

Modelling conventions: time is exact rational wall-clock seconds;
time.sleep(d) advances the clock by exactly d; the random jitter sample
is an explicit parameter constrained to the range random.uniform draws
from.  Network interaction is an environment mapping attempt indices to
attempt outcomes; each loop iteration of the source reads exactly one
outcome, so indexing outcomes by the source's own loop counters is
faithful.  Bounded loops are driven by a fuel argument equal to the
number of iterations the source loop can still run, so fuel running out
coincides exactly with the source loop's exit condition.
-/

namespace InvChecker

/-- State of the RateLimiter class (inv-checker.py lines 22-50). -/
structure RateLimiter where
  base_delay : ℚ
  max_delay : ℚ
  jitter : ℚ
  last_request_time : ℚ
  consecutive_429 : ℕ
deriving DecidableEq

namespace RateLimiter

/-- RateLimiter.wait (lines 30-41).  now is time.time() at entry; u is the
random.uniform(-jitter * delay, jitter * delay) sample, where delay is
base_delay at the point the sample is drawn; the second time.time() call
after a sleep of d seconds reads now + d. -/
def wait (r : RateLimiter) (now u : ℚ) : RateLimiter :=
  let elapsed := now - r.last_request_time
  let delay := r.base_delay + u
  if elapsed < delay then
    { r with last_request_time := now + (delay - elapsed) }
  else
    { r with last_request_time := now }

/-- RateLimiter.handle_429 (lines 43-47): increments consecutive_429, then
sleeps min(base_delay * 2 ** consecutive_429, max_delay) seconds.  Returns
the new state together with the slept delay. -/
def handle_429 (r : RateLimiter) : RateLimiter × ℚ :=
  let c := r.consecutive_429 + 1
  ({ r with consecutive_429 := c }, min (r.base_delay * 2 ^ c) r.max_delay)

/-- RateLimiter.success (lines 49-50): resets the consecutive-429 counter. -/
def success (r : RateLimiter) : RateLimiter :=
  { r with consecutive_429 := 0 }

/-- The state after n consecutive handle_429 calls. -/
def iter429 (r : RateLimiter) : ℕ → RateLimiter
  | 0 => r
  | n + 1 => (handle_429 (iter429 r n)).1

/-- The delay slept by the k-th (1-based) consecutive handle_429 call,
starting from state r. -/
def nthPenalty (r : RateLimiter) (k : ℕ) : ℚ :=
  (handle_429 (iter429 r (k - 1))).2

/-- Gap between the request timestamps recorded by the pacer before and
after one wait call. -/
def waitGap (r : RateLimiter) (now u : ℚ) : ℚ :=
  (wait r now u).last_request_time - r.last_request_time

end RateLimiter

theorem iter429_fields (r : RateLimiter) :
    ∀ n, (RateLimiter.iter429 r n).consecutive_429 = r.consecutive_429 + n ∧
      (RateLimiter.iter429 r n).base_delay = r.base_delay ∧
      (RateLimiter.iter429 r n).max_delay = r.max_delay := by
  intro n
  induction n with
  | zero => simp [RateLimiter.iter429]
  | succ m ih =>
    obtain ⟨h1, h2, h3⟩ := ih
    refine ⟨?_, ?_, ?_⟩ <;>
      · simp [RateLimiter.iter429, RateLimiter.handle_429, h1, h2, h3]
        try omega

theorem nthPenalty_formula (r : RateLimiter) (h0 : r.consecutive_429 = 0) (k : ℕ) :
    RateLimiter.nthPenalty r k =
      min (r.base_delay * 2 ^ ((k - 1) + 1)) r.max_delay := by
  obtain ⟨h1, h2, h3⟩ := iter429_fields r (k - 1)
  simp [RateLimiter.nthPenalty, RateLimiter.handle_429, h1, h2, h3, h0]

/-- C7: starting from a reset counter, the k-th consecutive handle_429
call (1-based) sleeps min(base_delay * 2 ^ k, max_delay); these penalties
are non-decreasing in k and capped at max_delay; and after a success call
the next penalty is back at the base level min(base_delay * 2 ^ 1,
max_delay), whatever the counter was before. -/
theorem handle_429_backoff (r : RateLimiter) (h0 : r.consecutive_429 = 0)
    (hb : 0 ≤ r.base_delay) :
    (∀ k, 0 < k →
      RateLimiter.nthPenalty r k = min (r.base_delay * 2 ^ k) r.max_delay)
    ∧ (∀ k, RateLimiter.nthPenalty r k ≤ RateLimiter.nthPenalty r (k + 1))
    ∧ (∀ k, RateLimiter.nthPenalty r k ≤ r.max_delay)
    ∧ (∀ r' : RateLimiter,
      RateLimiter.nthPenalty (RateLimiter.success r') 1 =
        min (r'.base_delay * 2 ^ 1) r'.max_delay) := by
  refine ⟨?_, ?_, ?_, ?_⟩
  · intro k hk
    rw [nthPenalty_formula r h0]
    have he : (k - 1) + 1 = k := by omega
    rw [he]
  · intro k
    rw [nthPenalty_formula r h0, nthPenalty_formula r h0]
    refine min_le_min ?_ le_rfl
    have hexp : ((k - 1) + 1) ≤ ((k + 1 - 1) + 1) := by omega
    have h2 : (2 : ℚ) ^ ((k - 1) + 1) ≤ 2 ^ ((k + 1 - 1) + 1) := by
      exact pow_le_pow_right₀ (by norm_num) hexp
    exact mul_le_mul_of_nonneg_left h2 hb
  · intro k
    rw [nthPenalty_formula r h0]
    exact min_le_right _ _
  · intro r'
    have := nthPenalty_formula (RateLimiter.success r') (by rfl) 1
    simpa [RateLimiter.success] using this

/-- Witness for handle_429_backoff at base_delay 1, max_delay 60: the third
consecutive penalty is min(1 * 2 ^ 3, 60) = 8 seconds. -/
theorem handle_429_backoff_witness :
    RateLimiter.nthPenalty ⟨1, 60, 1/5, 0, 0⟩ 3 =
      min ((1 : ℚ) * 2 ^ 3) 60 :=
  (handle_429_backoff ⟨1, 60, 1/5, 0, 0⟩ rfl (by norm_num)).1 3 (by norm_num)

/-- C9 (amended): given a jitter sample u in the range random.uniform is
called with and a monotone clock, the gap between the pacer's recorded
request timestamps across one wait call is always at least
base_delay * (1 - jitter); when the call arrives before the jittered delay
has elapsed (back-to-back calls) the gap equals the jittered delay
base_delay + u and is also at most base_delay * (1 + jitter); and the
recorded "last request time" after the wait is the post-wait clock value
max now (previous + (base_delay + u)).  When the caller itself spends
longer than the jittered delay between requests, the gap is that longer
elapsed time, which can exceed base_delay * (1 + jitter): wait only
enforces a minimum. -/
theorem wait_gap_bounds (r : RateLimiter) (now u : ℚ)
    (_hb : 0 ≤ r.base_delay)
    (hlow : -(r.jitter * r.base_delay) ≤ u)
    (hup : u ≤ r.jitter * r.base_delay)
    (_hnow : r.last_request_time ≤ now) :
    (r.base_delay * (1 - r.jitter) ≤ RateLimiter.waitGap r now u)
    ∧ (now - r.last_request_time < r.base_delay + u →
        RateLimiter.waitGap r now u = r.base_delay + u
        ∧ RateLimiter.waitGap r now u ≤ r.base_delay * (1 + r.jitter))
    ∧ (RateLimiter.wait r now u).last_request_time =
        max now (r.last_request_time + (r.base_delay + u)) := by
  have hc : r.jitter * r.base_delay = r.base_delay * r.jitter := mul_comm _ _
  by_cases h : now - r.last_request_time < r.base_delay + u
  · have hg : RateLimiter.waitGap r now u = r.base_delay + u := by
      simp only [RateLimiter.waitGap, RateLimiter.wait, if_pos h]
      ring
    refine ⟨?_, fun _ => ⟨hg, ?_⟩, ?_⟩
    · rw [hg]; nlinarith [hlow]
    · rw [hg]; nlinarith [hup]
    · simp only [RateLimiter.wait, if_pos h]
      rw [max_eq_right (by linarith)]
      ring
  · have hg : RateLimiter.waitGap r now u = now - r.last_request_time := by
      simp only [RateLimiter.waitGap, RateLimiter.wait, if_neg h]
    refine ⟨?_, fun hcon => absurd hcon h, ?_⟩
    · rw [hg]; nlinarith [hlow, not_lt.mp h]
    · simp only [RateLimiter.wait, if_neg h]
      rw [max_eq_left (by linarith [not_lt.mp h])]

/-- Witness for wait_gap_bounds: base_delay 1, jitter 1/5, sample 1/10,
second call issued at the very instant the previous one finished. -/
theorem wait_gap_bounds_witness :
    RateLimiter.waitGap ⟨1, 60, 1/5, 10, 0⟩ 10 (1/10) = 1 + 1/10
    ∧ RateLimiter.waitGap ⟨1, 60, 1/5, 10, 0⟩ 10 (1/10) ≤ 1 * (1 + 1/5)
    ∧ (RateLimiter.wait ⟨1, 60, 1/5, 10, 0⟩ 10 (1/10)).last_request_time =
        max 10 (10 + (1 + 1/10)) := by
  have h := wait_gap_bounds ⟨1, 60, 1/5, 10, 0⟩ 10 (1/10) (by norm_num)
    (by norm_num) (by norm_num) (by norm_num)
  exact ⟨(h.2.1 (by norm_num)).1, (h.2.1 (by norm_num)).2, h.2.2⟩

/-- C9 counterexample: base_delay 1, jitter 1/5.  A first-ever wait at
time 10 records timestamp 10; the caller then spends 100 seconds before
the next wait, so the next recorded timestamp is 110 and the gap is 100,
outside the claimed interval since 100 is above
base_delay * (1 + jitter) = 6/5.  The source's wait (lines 30-41) sleeps
only when the elapsed time is below the jittered delay, so it bounds the
gap from below, never from above. -/
theorem wait_gap_above_claimed_interval :
    RateLimiter.waitGap (RateLimiter.wait ⟨1, 60, 1/5, 0, 0⟩ 10 0) 110 0 = 100
    ∧ ¬(RateLimiter.waitGap (RateLimiter.wait ⟨1, 60, 1/5, 0, 0⟩ 10 0) 110 0
        ≤ (1 : ℚ) * (1 + 1/5)) := by
  refine ⟨?_, ?_⟩ <;> norm_num [RateLimiter.waitGap, RateLimiter.wait]

/-- A cached price record: {'price': ..., 'quantity': ...}. -/
structure PriceRecord where
  price : ℚ
  quantity : ℤ
deriving DecidableEq

/-- A cache entry as written by PriceCache.set:
{'data': record, 'timestamp': epoch seconds}. -/
structure CacheEntry where
  data : PriceRecord
  timestamp : ℚ
deriving DecidableEq

/-- The in-memory cache mapping of PriceCache (item name to entry). -/
def CacheStore : Type := String → Option CacheEntry

namespace PriceCache

/-- PriceCache.get (lines 79-91): absent key reads None; an entry whose
truthy (nonzero) timestamp is older than the cache duration reads None;
otherwise the stored record is returned.  The store itself is not
modified: expiry is lazy. -/
def get (c : CacheStore) (dur : ℚ) (k : String) (now : ℚ) : Option PriceRecord :=
  match c k with
  | none => none
  | some e =>
    if e.timestamp ≠ 0 then
      if dur < now - e.timestamp then none else some e.data
    else some e.data

/-- PriceCache.set (lines 93-98): replaces the entry wholesale, stamping
it with the current time.  (The write-through save_cache call only
persists to disk and does not change the mapping.) -/
def set (c : CacheStore) (k : String) (v : PriceRecord) (now : ℚ) : CacheStore :=
  fun k' => if k' = k then some ⟨v, now⟩ else c k'

end PriceCache

/-- C4: for every key and record, after set(k, v) at a (positive,
i.e. reachable wall-clock) time t, get at any time with age at most the
cache duration returns v, get at any time with age beyond the duration
returns None, and the expired entry is still stored (treated as absent,
not deleted). -/
theorem priceCache_ttl (c : CacheStore) (k : String) (v : PriceRecord)
    (t t' dur : ℚ) (ht : 0 < t) :
    (t' - t ≤ dur → PriceCache.get (PriceCache.set c k v t) dur k t' = some v)
    ∧ (dur < t' - t → PriceCache.get (PriceCache.set c k v t) dur k t' = none)
    ∧ PriceCache.set c k v t k = some ⟨v, t⟩ := by
  have hk : PriceCache.set c k v t k = some ⟨v, t⟩ := by
    simp [PriceCache.set]
  refine ⟨?_, ?_, hk⟩
  · intro hle
    simp only [PriceCache.get, hk]
    rw [if_pos (by exact ne_of_gt ht), if_neg (by linarith)]
  · intro hgt
    simp only [PriceCache.get, hk]
    rw [if_pos (by exact ne_of_gt ht), if_pos (by linarith)]

/-- Witness for priceCache_ttl: duration 86400 seconds, entry set at
t = 1000; a read 5 seconds later hits, a read 90000 seconds later is
absent, and the entry is still stored. -/
theorem priceCache_ttl_witness :
    PriceCache.get (PriceCache.set (fun _ => none) "ak" ⟨25/2, 3⟩ 1000)
        86400 "ak" 1005 = some ⟨25/2, 3⟩
    ∧ PriceCache.get (PriceCache.set (fun _ => none) "ak" ⟨25/2, 3⟩ 1000)
        86400 "ak" 91000 = none
    ∧ PriceCache.set (fun _ => none) "ak" ⟨25/2, 3⟩ 1000 "ak" =
        some ⟨⟨25/2, 3⟩, 1000⟩ := by
  refine ⟨?_, ?_, ?_⟩
  · exact (priceCache_ttl (fun _ => none) "ak" ⟨25/2, 3⟩ 1000 1005 86400
      (by norm_num)).1 (by norm_num)
  · exact (priceCache_ttl (fun _ => none) "ak" ⟨25/2, 3⟩ 1000 91000 86400
      (by norm_num)).2.1 (by norm_num)
  · exact (priceCache_ttl (fun _ => none) "ak" ⟨25/2, 3⟩ 1000 91000 86400
      (by norm_num)).2.2

/-- One listing entry of the listinginfo response mapping, with the
fields get_price reads; each field may be missing from the JSON. -/
structure ListingInfo where
  converted_price : Option ℤ
  converted_fee : Option ℤ
  quantity : Option ℤ
deriving DecidableEq

/-- Outcome of one network attempt inside get_price (lines 193-234):
rl is a response with status_code 429 (line 199); err429 is an HTTPError
carrying status 429 raised by raise_for_status (line 224, unreachable for
this endpoint since the explicit 429 check runs first, but present in the
source); err is any other exception (transport error, other HTTP error,
JSON decode failure, ...); ok is a 2xx response whose JSON parsed, with
none modelling an empty listinginfo mapping. -/
inductive PriceAttempt where
  | rl
  | err429
  | err
  | ok (listing : Option ListingInfo)
deriving DecidableEq

/-- Pacer / network events, in program order: Ev.wait is a
limiter.wait() call, Ev.net an issued HTTP request, Ev.h429 a
limiter.handle_429() penalty backoff, Ev.sleepT a time.sleep of d whole
seconds in the inventory retry loop. -/
inductive Ev where
  | wait
  | net
  | h429
  | sleepT (d : ℕ)
deriving DecidableEq

/-- The zero fallback record {'price': 0.0, 'quantity': 0}. -/
def zeroRec : PriceRecord := ⟨0, 0⟩

/-- Parsing of a successful listings response (lines 207-218): empty
listinginfo gives the zero record; otherwise
price = (converted_price + converted_fee) / 100 when converted_price is
present (fee and quantity defaulting to 0), else price 0.0. -/
def parseListing : Option ListingInfo → PriceRecord
  | none => zeroRec
  | some info =>
    let quantity := info.quantity.getD 0
    match info.converted_price with
    | some p => ⟨((p + info.converted_fee.getD 0 : ℤ) : ℚ) / 100, quantity⟩
    | none => ⟨0, quantity⟩

/-- Whether a get_price attempt outcome is a failure (anything but a
parsed 2xx response). -/
def isFailP : PriceAttempt → Bool
  | PriceAttempt.ok _ => false
  | _ => true

/-- The "for attempt in range(max_retries + 1)" loop of get_price
(lines 193-234).  env maps the attempt)index to its outcome; i is the
loop variable; fuel is maxR + 1 - i, the number of iterations left, so
fuel 0 is the loop falling off the end, where Python implicitly returns
None.  Result: (returned value, cache write if any, events in order).
A 429 status continues the loop unconditionally (line 201), skipping the
final-attempt check, so a 429 on the last attempt exhausts the loop; an
exception reaches the final-attempt check (line 233) and returns the
zero record exactly on the last attempt. -/
def getPriceAux (env : ℕ → PriceAttempt) (maxR : ℕ) :
    ℕ → ℕ → Option PriceRecord × Option PriceRecord × List Ev
  | _, 0 => (none, none, [])
  | i, fuel + 1 =>
    match env i with
    | PriceAttempt.ok li =>
      let r := parseListing li
      (some r, some r, [Ev.wait, Ev.net])
    | PriceAttempt.rl =>
      let rest := getPriceAux env maxR (i + 1) fuel
      (rest.1, rest.2.1, Ev.wait :: Ev.net :: Ev.h429 :: rest.2.2)
    | PriceAttempt.err429 =>
      if i < maxR then
        let rest := getPriceAux env maxR (i + 1) fuel
        (rest.1, rest.2.1, Ev.wait :: Ev.net :: Ev.h429 :: rest.2.2)
      else (some zeroRec, none, [Ev.wait, Ev.net])
    | PriceAttempt.err =>
      if i = maxR then (some zeroRec, none, [Ev.wait, Ev.net])
      else
        let rest := getPriceAux env maxR (i + 1) fuel
        (rest.1, rest.2.1, Ev.wait :: Ev.net :: rest.2.2)

/-- get_price (lines 176-234): cache-first lookup keyed by the item name;
on a miss, the bounded retry loop runs and a successful parse (and only
that) is written through to the cache.  dur is the cache duration, now
the wall-clock time of the call, maxR the max_retries argument
(default 5, giving maxR + 1 attempts). -/
def get_price (c : CacheStore) (dur now : ℚ) (name : String)
    (env : ℕ → PriceAttempt) (maxR : ℕ) :
    Option PriceRecord × CacheStore × List Ev :=
  match PriceCache.get c dur name now with
  | some r => (some r, c, [])
  | none =>
    let out := getPriceAux env maxR 0 (maxR + 1)
    match out.2.1 with
    | some w => (out.1, PriceCache.set c name w now, out.2.2)
    | none => (out.1, c, out.2.2)

/-- On an all-failure attempt stream the loop returns the zero record
when the final attempt failed by exception, and falls off the loop
(returning None) when the final attempt was a 429 status; it never
writes to the cache. -/
theorem getPriceAux_allFail (env : ℕ → PriceAttempt) (maxR : ℕ) :
    ∀ fuel i, i + fuel = maxR + 1 → i ≤ maxR →
      (∀ j, i ≤ j → j ≤ maxR → isFailP (env j) = true) →
      (getPriceAux env maxR i fuel).1 =
        (if env maxR = PriceAttempt.rl then none else some zeroRec)
      ∧ (getPriceAux env maxR i fuel).2.1 = none := by
  intro fuel
  induction fuel with
  | zero => intro i hfi hi _; omega
  | succ f ih =>
    intro i hfi hi hfail
    have hfi' : isFailP (env i) = true := hfail i le_rfl hi
    rcases hcase : env i with _ | _ | _ | li
    · by_cases hlast : i = maxR
      · subst hlast
        have hf0 : f = 0 := by omega
        subst hf0
        simp [getPriceAux, hcase]
      · have := ih (i + 1) (by omega) (by omega)
          (fun j h1 h2 => hfail j (by omega) h2)
        simp [getPriceAux, hcase, this.1, this.2]
    · by_cases hlast : i = maxR
      · have hcase' : env maxR = PriceAttempt.err429 := hlast ▸ hcase
        have hnotlt : ¬ i < maxR := by omega
        simp [getPriceAux, hcase, hnotlt, hcase']
      · have hlt : i < maxR := by omega
        have := ih (i + 1) (by omega) (by omega)
          (fun j h1 h2 => hfail j (by omega) h2)
        simp [getPriceAux, hcase, if_pos hlt, this.1, this.2]
    · by_cases hlast : i = maxR
      · have hcase' : env maxR = PriceAttempt.err := hlast ▸ hcase
        simp [getPriceAux, hcase, hlast, hcase']
      · have := ih (i + 1) (by omega) (by omega)
          (fun j h1 h2 => hfail j (by omega) h2)
        simp [getPriceAux, hcase, hlast, this.1, this.2]
    · rw [hcase] at hfi'
      simp [isFailP] at hfi'

/-- The loop's cache write, when present, is the parse of some successful
attempt's listing. -/
theorem getPriceAux_write_ok (env : ℕ → PriceAttempt) (maxR : ℕ) :
    ∀ fuel i r, (getPriceAux env maxR i fuel).2.1 = some r →
      ∃ j li, env j = PriceAttempt.ok li ∧ r = parseListing li := by
  intro fuel
  induction fuel with
  | zero => intro i r h; simp [getPriceAux] at h
  | succ f ih =>
    intro i r h
    rcases hcase : env i with _ | _ | _ | li
    · rw [getPriceAux, hcase] at h
      exact ih (i + 1) r h
    · rw [getPriceAux, hcase] at h
      by_cases hlt : i < maxR
      · rw [if_pos hlt] at h
        exact ih (i + 1) r h
      · rw [if_neg hlt] at h; cases h
    · rw [getPriceAux, hcase] at h
      by_cases heq : i = maxR
      · rw [if_pos heq] at h; cases h
      · rw [if_neg heq] at h
        exact ih (i + 1) r h
    · rw [getPriceAux, hcase] at h
      exact ⟨i, li, hcase, by cases h; rfl⟩

/-- A read that misses (absent or expired) still misses at any later
time: nothing un-expires. -/
theorem priceCacheGet_none_mono (c : CacheStore) (dur : ℚ) (k : String) :
    ∀ now now', PriceCache.get c dur k now = none → now ≤ now' →
      PriceCache.get c dur k now' = none := by
  intro now now' h hle
  cases hc : c k with
  | none => simp only [PriceCache.get, hc]
  | some e =>
    simp only [PriceCache.get, hc] at h ⊢
    by_cases ht : e.timestamp ≠ 0
    · simp only [if_pos ht] at h ⊢
      by_cases hd : dur < now - e.timestamp
      · rw [if_pos (by linarith)]
      · rw [if_neg hd] at h; simp at h
    · rw [if_neg ht] at h; simp at h

/-- C1 (amended): on a cache miss whose every attempt fails, get_price
returns the zero-fallback record when the final attempt failed by
exception (transport, HTTP or decoding error), but returns None when the
final attempt was a rate-limited (429-status) response, because that
branch's continue (line 201) skips the final-attempt check at line 233
and the for loop falls off the end. -/
theorem get_price_exhausted_fallback (c : CacheStore) (dur now : ℚ)
    (name : String) (env : ℕ → PriceAttempt) (maxR : ℕ)
    (hmiss : PriceCache.get c dur name now = none)
    (hfail : ∀ j, j ≤ maxR → isFailP (env j) = true) :
    (get_price c dur now name env maxR).1 =
      (if env maxR = PriceAttempt.rl then none else some zeroRec) := by
  have h := getPriceAux_allFail env maxR (maxR + 1) 0 (by omega) (by omega)
    (fun j _ h2 => hfail j h2)
  simp only [get_price, hmiss]
  rw [h.2]
  exact h.1

/-- Witness for get_price_exhausted_fallback: six transport failures in a
row yield the zero record. -/
theorem get_price_exhausted_fallback_witness :
    (get_price (fun _ => none) 86400 1000 "item"
      (fun _ => PriceAttempt.err) 5).1 = some zeroRec := by
  have h := get_price_exhausted_fallback (fun _ => none) 86400 1000 "item"
    (fun _ => PriceAttempt.err) 5 rfl (fun j _ => rfl)
  simpa using h

/-- C1 counterexample: with max_retries 5 and every attempt a 429 status,
get_price returns None rather than the zero-fallback record the claim
requires.  (main() itself guards against this None at line 274 with
"if price_info else 0.0".) -/
theorem get_price_allRateLimited_none :
    (get_price (fun _ => none) 86400 1000 "item"
      (fun _ => PriceAttempt.rl) 5).1 = none
    ∧ (get_price (fun _ => none) 86400 1000 "item"
      (fun _ => PriceAttempt.rl) 5).1 ≠ some zeroRec := by
  have h1 : (get_price (fun _ => none) 86400 1000 "item"
      (fun _ => PriceAttempt.rl) 5).1 = none := rfl
  exact ⟨h1, by rw [h1]; exact fun h => Option.noConfusion h⟩

/-- C6: a valid cache hit short-circuits get_price: the cached record is
returned verbatim, the cache mapping is unchanged, and no event happens
at all — no limiter.wait, no network request, no backoff. -/
theorem get_price_cache_hit (c : CacheStore) (dur now : ℚ) (name : String)
    (env : ℕ → PriceAttempt) (maxR : ℕ) (r : PriceRecord)
    (hhit : PriceCache.get c dur name now = some r) :
    get_price c dur now name env maxR = (some r, c, []) := by
  simp [get_price, hhit]

/-- Witness for get_price_cache_hit: an entry set at time 1000 and read
at time 1005 under a 86400-second duration. -/
theorem get_price_cache_hit_witness :
    get_price (PriceCache.set (fun _ => none) "item" ⟨11, 3⟩ 1000) 86400 1005
      "item" (fun _ => PriceAttempt.rl) 5 =
      (some ⟨11, 3⟩, PriceCache.set (fun _ => none) "item" ⟨11, 3⟩ 1000, []) :=
  get_price_cache_hit _ 86400 1005 "item" _ 5 ⟨11, 3⟩
    (by norm_num [PriceCache.get, PriceCache.set])

/-- If attempts i..m-1 fail and attempt m succeeds within the budget,
the loop returns the parsed record and schedules it as the cache write. -/
theorem getPriceAux_reach_success (env : ℕ → PriceAttempt) (maxR m : ℕ)
    (li : Option ListingInfo) (hm : m ≤ maxR)
    (hs : env m = PriceAttempt.ok li) :
    ∀ fuel i, i + fuel = maxR + 1 → i ≤ m →
      (∀ j, i ≤ j → j < m → isFailP (env j) = true) →
      (getPriceAux env maxR i fuel).1 = some (parseListing li)
      ∧ (getPriceAux env maxR i fuel).2.1 = some (parseListing li) := by
  intro fuel
  induction fuel with
  | zero => intro i h0 hi _; omega
  | succ f ih =>
    intro i hif hi hfail
    by_cases him : i = m
    · subst him
      simp [getPriceAux, hs]
    · have hilt : i < m := by omega
      have hfi := hfail i le_rfl hilt
      rcases hcase : env i with _ | _ | _ | li'
      · have hrec := ih (i + 1) (by omega) (by omega)
          (fun j h1 h2 => hfail j (by omega) h2)
        simp [getPriceAux, hcase, hrec.1, hrec.2]
      · have hlt : i < maxR := by omega
        have hrec := ih (i + 1) (by omega) (by omega)
          (fun j h1 h2 => hfail j (by omega) h2)
        simp [getPriceAux, hcase, hlt, hrec.1, hrec.2]
      · have hne : i ≠ maxR := by omega
        have hrec := ih (i + 1) (by omega) (by omega)
          (fun j h1 h2 => hfail j (by omega) h2)
        simp [getPriceAux, hcase, hne, hrec.1, hrec.2]
      · rw [hcase] at hfi; simp [isFailP] at hfi

/-- C8: price arithmetic of get_price.  A listing is parsed to
(converted_price + converted_fee) / 100 major units; in particular
converted_price 1050 with converted_fee 50 parses to price 11; an empty
listinginfo parses to the zero record; and on a cache miss whose
attempts fail until a success at any attempt m within the budget,
whichever record was parsed is returned and written to the cache. -/
theorem get_price_price_arith (c : CacheStore) (dur now : ℚ) (name : String)
    (env : ℕ → PriceAttempt) (maxR : ℕ)
    (hmiss : PriceCache.get c dur name now = none) :
    (∀ cp fee q, parseListing (some ⟨some cp, some fee, some q⟩) =
      ⟨((cp : ℚ) + (fee : ℚ)) / 100, q⟩)
    ∧ parseListing (some ⟨some 1050, some 50, some 3⟩) = ⟨11, 3⟩
    ∧ parseListing none = zeroRec
    ∧ (∀ m li, m ≤ maxR → env m = PriceAttempt.ok li →
        (∀ j, j < m → isFailP (env j) = true) →
        (get_price c dur now name env maxR).1 = some (parseListing li)
        ∧ (get_price c dur now name env maxR).2.1 =
            PriceCache.set c name (parseListing li) now) := by
  refine ⟨?_, by norm_num [parseListing], rfl, ?_⟩
  · intro cp fee q
    simp only [parseListing, Option.getD_some]
    rw [PriceRecord.mk.injEq]
    refine ⟨?_, rfl⟩
    push_cast
    ring
  · intro m li hm hs hfail
    have h := getPriceAux_reach_success env maxR m li hm hs (maxR + 1) 0
      (by omega) (by omega) (fun j _ h2 => hfail j h2)
    constructor
    · simp only [get_price, hmiss]
      rw [h.2]
      simpa using h.1
    · simp only [get_price, hmiss]
      rw [h.2]

/-- Witness for get_price_price_arith: a transient failure, then the
1050 + 50 listing, on a fresh cache; the parsed record is returned and
written through. -/
theorem get_price_price_arith_witness :
    (get_price (fun _ => none) 86400 1000 "ak"
        (fun j => if j = 0 then PriceAttempt.err
          else PriceAttempt.ok (some ⟨some 1050, some 50, some 3⟩)) 5).1 =
      some (parseListing (some ⟨some 1050, some 50, some 3⟩))
    ∧ (get_price (fun _ => none) 86400 1000 "ak"
        (fun j => if j = 0 then PriceAttempt.err
          else PriceAttempt.ok (some ⟨some 1050, some 50, some 3⟩)) 5).2.1 =
      PriceCache.set (fun _ => none) "ak"
        (parseListing (some ⟨some 1050, some 50, some 3⟩)) 1000 :=
  (get_price_price_arith (fun _ => none) 86400 1000 "ak"
    (fun j => if j = 0 then PriceAttempt.err
      else PriceAttempt.ok (some ⟨some 1050, some 50, some 3⟩)) 5 rfl).2.2.2
    1 (some ⟨some 1050, some 50, some 3⟩) (by omega) rfl
    (fun j hj => by interval_cases j; rfl)

/-- C10: cache-write policy of get_price on a miss.  (a) If every attempt
fails, no set is performed: the cache comes back unchanged, and the same
name still misses at every later time, so a subsequent lookup goes back
to the network.  (b) Any write that does happen is the parse of some
successful response's listing.  (c) A first-attempt success — including
the empty-listinginfo zero fallback — is written through. -/
theorem get_price_cache_write_policy (c : CacheStore) (dur now : ℚ)
    (name : String) (env : ℕ → PriceAttempt) (maxR : ℕ)
    (hmiss : PriceCache.get c dur name now = none) :
    ((∀ j, j ≤ maxR → isFailP (env j) = true) →
      (get_price c dur now name env maxR).2.1 = c
      ∧ ∀ now', now ≤ now' → PriceCache.get c dur name now' = none)
    ∧ (∀ r, (getPriceAux env maxR 0 (maxR + 1)).2.1 = some r →
        ∃ j li, env j = PriceAttempt.ok li ∧ r = parseListing li)
    ∧ (∀ li, env 0 = PriceAttempt.ok li →
        (get_price c dur now name env maxR).2.1 =
          PriceCache.set c name (parseListing li) now) := by
  refine ⟨?_, ?_, ?_⟩
  · intro hfail
    have h := getPriceAux_allFail env maxR (maxR + 1) 0 (by omega) (by omega)
      (fun j _ h2 => hfail j h2)
    refine ⟨?_,
      fun now' hle => priceCacheGet_none_mono c dur name now now' hmiss hle⟩
    simp only [get_price, hmiss]
    rw [h.2]
  · intro r h
    exact getPriceAux_write_ok env maxR (maxR + 1) 0 r h
  · intro li h
    simp [get_price, hmiss, getPriceAux, h]

/-- Witness for get_price_cache_write_policy: six transport failures
leave the empty cache empty, and a later read still misses. -/
theorem get_price_cache_write_policy_witness :
    (get_price (fun _ => none) 86400 1000 "m4"
      (fun _ => PriceAttempt.err) 5).2.1 = (fun _ => none : CacheStore)
    ∧ PriceCache.get (fun _ => none) 86400 "m4" 2000 = none := by
  have h := get_price_cache_write_policy (fun _ => none) 86400 1000 "m4"
    (fun _ => PriceAttempt.err) 5 rfl
  exact ⟨(h.1 (fun j _ => rfl)).1, (h.1 (fun j _ => rfl)).2 2000 (by norm_num)⟩

/-- One parsed inventory page, with the fields fetch_csgo_inventory reads
(defaults applied: assets [], descriptions [], more_items 0, absent
last_assetid none).  is_empty models the Python truthiness of the whole
parsed JSON object: true means resp.json() was an empty dict, which the
"if not data" check at line 156 treats as the end of pagination. -/
structure InvPage where
  assets : List ℕ
  descriptions : List ℕ
  more_items : ℕ
  last_assetid : Option String
  is_empty : Bool
deriving DecidableEq, Inhabited

/-- Outcome of one attempt of the inner retry loop (lines 131-154):
a 429-status response, any exception caught at line 146
(requests.exceptions.RequestException or json.JSONDecodeError, covering
transport errors, raise_for_status errors and decode failures), or a
success carrying the parsed page. -/
inductive InvAttempt where
  | rateLimited
  | transient
  | success (p : InvPage)
deriving DecidableEq

/-- How the inner retry loop of fetch_csgo_inventory ends: a break with
fresh data; an early "return accumulated" from the except branch after
the budget is exhausted by an exception (lines 148-150); or the while
condition itself failing after the budget was exhausted by the 429
branch, which reaches line 156 without assigning data. -/
inductive PageFetchResult where
  | got (p : InvPage)
  | giveUp
  | fellThrough
deriving DecidableEq

/-- Whether an inventory attempt outcome is a failure. -/
def isFailI : InvAttempt → Bool
  | InvAttempt.success _ => false
  | _ => true

/-- The inner "while retry_count < max_retries" loop (lines 131-154).
attempts maps the value of retry_count at the top of an iteration to
that iteration's outcome (every non-final iteration increments
retry_count by exactly one, so this indexing is faithful); i is
retry_count; fuel is maxR - i.  On a 429 the pacer backs off and
retry_count is incremented (line 137) — consuming a retry slot; on an
exception retry_count is incremented and, if budget remains, the loop
sleeps min(2 ** retry_count, 60) seconds, else returns early. -/
def fetchPageAux (attempts : ℕ → InvAttempt) (maxR : ℕ) :
    ℕ → ℕ → PageFetchResult × List Ev
  | _, 0 => (PageFetchResult.fellThrough, [])
  | i, fuel + 1 =>
    match attempts i with
    | InvAttempt.success p => (PageFetchResult.got p, [Ev.net])
    | InvAttempt.rateLimited =>
      let rest := fetchPageAux attempts maxR (i + 1) fuel
      (rest.1, Ev.net :: Ev.h429 :: rest.2)
    | InvAttempt.transient =>
      if maxR ≤ i + 1 then (PageFetchResult.giveUp, [Ev.net])
      else
        let rest := fetchPageAux attempts maxR (i + 1) fuel
        (rest.1, Ev.net :: Ev.sleepT (min (2 ^ (i + 1)) 60) :: rest.2)

/-- One page fetch: the inner loop started with retry_count 0. -/
def fetchPage (attempts : ℕ → InvAttempt) (maxR : ℕ) : PageFetchResult × List Ev :=
  fetchPageAux attempts maxR 0 maxR

/-- The pagination continuation test of lines 166-172: continue exactly
when the page reported more_items == 1 and a truthy (present, non-empty)
last_assetid cursor. -/
def contCond (p : InvPage) : Bool :=
  (p.more_items == 1) &&
    (match p.last_assetid with
     | none => false
     | some s => !(s == ""))

/-- Mutable locals of the outer pagination loop: the accumulated assets,
the captured descriptions, the "first page" flag, and the data variable,
none when not yet assigned (unbound). -/
structure InvState where
  all_assets : List ℕ
  descriptions : List ℕ
  first : Bool
  data : Option InvPage

/-- Result of fetch_csgo_inventory: the returned dict, a NameError raised
by "if not data" when data was never assigned (first-page 429-budget
exhaustion), or outOfFuel when the modelled run was not given enough
pages (the source loop would keep going). -/
inductive InvResult where
  | ok (assets : List ℕ) (descriptions : List ℕ)
  | nameError
  | outOfFuel
deriving DecidableEq

/-- The outer "while more_items" pagination loop (lines 122-174).  env
maps (page index, retry_count) to an attempt outcome; the environment is
shifted by one page on each outer iteration; fuel bounds the number of
outer iterations.  A giveUp from the inner loop returns the accumulated
lists; a fellThrough leaves data holding whatever it held before — unbound
on the first page (NameError at line 156), or the previous page, which is
then processed again (duplicating its assets and retrying the same
cursor). -/
def fetchInvLoop (maxR : ℕ) : (ℕ → ℕ → InvAttempt) → ℕ → InvState → InvResult
  | _, 0, _ => InvResult.outOfFuel
  | env, fuel + 1, s =>
    let cont := fun d : Option InvPage =>
      match d with
      | none => InvResult.nameError
      | some p =>
        if p.is_empty then InvResult.ok s.all_assets s.descriptions
        else
          let descs := if s.first then p.descriptions else s.descriptions
          let assets := s.all_assets ++ p.assets
          if contCond p then
            fetchInvLoop maxR (fun j a => env (j + 1) a) fuel
              ⟨assets, descs, false, some p⟩
          else InvResult.ok assets descs
    match (fetchPage (env 0) maxR).1 with
    | PageFetchResult.giveUp => InvResult.ok s.all_assets s.descriptions
    | PageFetchResult.got p => cont (some p)
    | PageFetchResult.fellThrough => cont s.data

/-- fetch_csgo_inventory (lines 109-174), with all locals at their
initial values (line 116-120). -/
def fetch_csgo_inventory (maxR : ℕ) (env : ℕ → ℕ → InvAttempt)
    (fuel : ℕ) : InvResult :=
  fetchInvLoop maxR env fuel ⟨[], [], true, none⟩

/-- A well-formed successful page sequence: every page is a non-empty
JSON object, every page but the last asks for more (more_items 1 and a
truthy cursor), and the last does not. -/
def pagesWF : List InvPage → Bool
  | [] => false
  | [p] => !p.is_empty && !contCond p
  | p :: ps => !p.is_empty && contCond p && pagesWF ps

/-- The environment in which page j's first attempt succeeds with the
j-th given page (pages beyond the list rate-limit forever; a run that
halts within the list never reads them). -/
def envOfPages (ps : List InvPage) : ℕ → ℕ → InvAttempt :=
  fun j _ =>
    match ps.get? j with
    | some p => InvAttempt.success p
    | none => InvAttempt.rateLimited

/-- The events a failed attempt at retry_count j contributes: a 429
backs off; a transient failure (with budget remaining) sleeps
min(2 ^ (j + 1), 60) seconds, j + 1 being retry_count after the
increment. -/
def attemptEvs (attempts : ℕ → InvAttempt) (j : ℕ) : List Ev :=
  match attempts j with
  | InvAttempt.rateLimited => [Ev.net, Ev.h429]
  | InvAttempt.transient => [Ev.net, Ev.sleepT (min (2 ^ (j + 1)) 60)]
  | InvAttempt.success _ => []

/-- A run of the inner loop with failures (of either kind) at retry_count
i..m-1 and a success at m reaches the success iff m is below the budget,
emitting exactly one failure's events per slot consumed. -/
theorem fetchPageAux_success_run (attempts : ℕ → InvAttempt) (maxR m : ℕ)
    (p : InvPage) (hs : attempts m = InvAttempt.success p) (hm : m < maxR) :
    ∀ fuel i, i + fuel = maxR → i ≤ m →
      (∀ j, i ≤ j → j < m → isFailI (attempts j) = true) →
      fetchPageAux attempts maxR i fuel =
        (PageFetchResult.got p,
          ((List.range' i (m - i)).map (attemptEvs attempts)).flatten ++ [Ev.net]) := by
  intro fuel
  induction fuel with
  | zero => intro i h0 hi _; omega
  | succ f ih =>
    intro i hif hi hfail
    by_cases him : i = m
    · subst him
      simp [fetchPageAux, hs]
    · have hilt : i < m := by omega
      have hfi : isFailI (attempts i) = true := hfail i le_rfl hilt
      have hrange : m - i = (m - (i + 1)) + 1 := by omega
      rcases hcase : attempts i with _ | _ | q
      · have hrec := ih (i + 1) (by omega) (by omega)
          (fun j h1 h2 => hfail j (by omega) h2)
        simp [fetchPageAux, hcase, hrec, hrange, List.range'_succ, attemptEvs]
      · have hnot : ¬ maxR ≤ i + 1 := by omega
        have hrec := ih (i + 1) (by omega) (by omega)
          (fun j h1 h2 => hfail j (by omega) h2)
        simp [fetchPageAux, hcase, hnot, hrec, hrange, List.range'_succ, attemptEvs]
      · rw [hcase] at hfi; simp [isFailI] at hfi

/-- C2 (amended): in fetch_csgo_inventory's bounded per-page retry loop,
a 429 response triggers the pacer's penalty backoff and a retry but DOES
consume one of the bounded retry slots (the 429 branch increments
retry_count, line 137), exactly as a transport or malformed-response
failure does; the latter additionally sleeps min(2 ^ k, 60) seconds
where k is the incremented retry_count.  Concretely: failures of either
kind at retry_count 0..m-1 followed by a success at m yield the page iff
m < max_retries, with one h429 event per 429 and one sleep event of
min(2 ^ (j + 1), 60) per transient failure at slot j. -/
theorem fetchPage_retry_behavior (attempts : ℕ → InvAttempt) (maxR m : ℕ)
    (p : InvPage) (hs : attempts m = InvAttempt.success p) (hm : m < maxR)
    (hfails : ∀ j, j < m → isFailI (attempts j) = true) :
    fetchPage attempts maxR =
      (PageFetchResult.got p,
        ((List.range' 0 m).map (attemptEvs attempts)).flatten ++ [Ev.net]) := by
  have h := fetchPageAux_success_run attempts maxR m p hs hm maxR 0
    (by omega) (by omega) (fun j _ h2 => hfails j h2)
  simpa [fetchPage] using h

/-- Demo page for the C2 theorems. -/
def pD : InvPage := ⟨[1, 2], [5], 1, some "a", false⟩

/-- Witness for fetchPage_retry_behavior: a 429, then a transient
failure, then a success; budget 5.  Events: backoff for the 429, a
min(2 ^ 2, 60) = 4 second sleep for the transient failure, then the
successful request. -/
theorem fetchPage_retry_behavior_witness :
    fetchPage (fun j => if j = 0 then InvAttempt.rateLimited
        else if j = 1 then InvAttempt.transient
        else InvAttempt.success pD) 5 =
      (PageFetchResult.got pD,
        ((List.range' 0 2).map (attemptEvs
          (fun j => if j = 0 then InvAttempt.rateLimited
            else if j = 1 then InvAttempt.transient
            else InvAttempt.success pD))).flatten ++ [Ev.net]) :=
  fetchPage_retry_behavior _ 5 2 pD rfl (by omega)
    (fun j hj => by interval_cases j <;> rfl)

/-- C2 counterexample: five 429 responses exhaust the retry budget even
though a success follows at the very next attempt.  The 429 branch
increments retry_count (line 137), so a rate-limit response does consume
a bounded retry slot; under the claim this run would reach the sixth
attempt and return the page. -/
theorem fetchPage_429_consumes_budget :
    (fetchPage (fun i => if i < 5 then InvAttempt.rateLimited
      else InvAttempt.success pD) 5).1 = PageFetchResult.fellThrough := rfl

/-- Demo pages for the C3 theorem. -/
def pG : InvPage := ⟨[1, 2], [5], 1, some "a", false⟩

/-- Demo final page for the C3 theorem. -/
def pE : InvPage := ⟨[9], [7], 0, none, false⟩

/-- C3 (the code evaluated at the failing inputs): when a page's retry
budget is exhausted with a 429 as the final failure, the inner while
condition fails without data having been assigned for this page.  On the
first page, "if not data" (line 156) then raises NameError — an exception
escapes to the caller.  On a later page, data still holds the previous
page, which is processed a second time: its assets are re-appended
(here [1, 2] appears twice) and its cursor retried.  Only exhaustion
whose final failure is an exception takes the early-return path
(lines 148-150) that the claim describes. -/
theorem fetchInv_429_exhaustion_bug :
    fetch_csgo_inventory 5 (fun _ _ => InvAttempt.rateLimited) 1 =
      InvResult.nameError
    ∧ fetch_csgo_inventory 5
        (fun j _ => if j = 0 then InvAttempt.success pG
          else if j = 1 then InvAttempt.rateLimited
          else InvAttempt.success pE) 3 =
      InvResult.ok [1, 2, 1, 2, 9] [5] :=
  ⟨rfl, rfl⟩

/-- Shifting the page environment by one page is the environment of the
remaining pages. -/
theorem envOfPages_shift (p : InvPage) (ps : List InvPage) :
    (fun j a => envOfPages (p :: ps) (j + 1) a) = envOfPages ps := by
  funext j a
  simp [envOfPages]

/-- A first-attempt success makes the inner loop hand back that page. -/
theorem fetchPage_first_success (attempts : ℕ → InvAttempt) (maxR : ℕ)
    (p : InvPage) (hR : 0 < maxR) (h0 : attempts 0 = InvAttempt.success p) :
    (fetchPage attempts maxR).1 = PageFetchResult.got p := by
  obtain ⟨m, rfl⟩ : ∃ m, maxR = m + 1 := ⟨maxR - 1, by omega⟩
  simp [fetchPage, fetchPageAux, h0]

/-- The pagination loop over a well-formed page sequence, from any loop
state and with any fuel of at least one outer iteration per page:
it stops with the last page and returns the accumulated assets extended
by all pages' assets in order. -/
theorem fetchInvLoop_pagesWF (maxR : ℕ) (hR : 0 < maxR) :
    ∀ (ps : List InvPage) (fuel : ℕ) (s : InvState), pagesWF ps = true →
      ps.length ≤ fuel →
      fetchInvLoop maxR (envOfPages ps) fuel s =
        InvResult.ok (s.all_assets ++ (ps.map InvPage.assets).flatten)
          (if s.first then ps.headI.descriptions else s.descriptions)
  | [], _, s, h, _ => by simp [pagesWF] at h
  | [p], fuel, s, h, hf => by
    simp only [pagesWF, Bool.and_eq_true, Bool.not_eq_true'] at h
    obtain ⟨h1, h2⟩ := h
    have hf1 : 1 ≤ fuel := by simpa using hf
    obtain ⟨f, rfl⟩ : ∃ f, fuel = f + 1 := ⟨fuel - 1, by omega⟩
    have hp : (fetchPage (envOfPages [p] 0) maxR).1 = PageFetchResult.got p :=
      fetchPage_first_success _ maxR p hR (by simp [envOfPages])
    simp [fetchInvLoop, hp, h1, h2, List.headI]
  | p :: q :: rest, fuel, s, h, hf => by
    simp only [pagesWF, Bool.and_eq_true, Bool.not_eq_true'] at h
    obtain ⟨⟨h1, h2⟩, h3⟩ := h
    have hf1 : (q :: rest).length + 1 ≤ fuel := by simpa using hf
    obtain ⟨f, rfl⟩ : ∃ f, fuel = f + 1 := ⟨fuel - 1, by omega⟩
    have hp : (fetchPage (envOfPages (p :: q :: rest) 0) maxR).1 =
        PageFetchResult.got p :=
      fetchPage_first_success _ maxR p hR (by simp [envOfPages])
    have hrec := fetchInvLoop_pagesWF maxR hR (q :: rest) f
      ⟨s.all_assets ++ p.assets,
        if s.first then p.descriptions else s.descriptions, false, some p⟩
      h3 (by omega)
    simp only [fetchInvLoop, hp, h1, h2, envOfPages_shift] at hrec ⊢
    simp [hrec, List.headI]

/-- C5: over any sequence of successfully fetched non-empty pages in
which every page but the last reports more_items 1 with a non-empty
cursor and the last reports more_items ≠ 1 or an empty/absent cursor,
fetch_csgo_inventory returns the concatenation of the pages' asset lists
in arrival order with the first page's descriptions, and it does so
within one outer iteration per page (any fuel of at least one per page
gives this same result, so retrieval halts with that last page). -/
theorem fetchInv_pagination (maxR : ℕ) (hR : 0 < maxR) (ps : List InvPage)
    (fuel : ℕ) (hwf : pagesWF ps = true) (hfuel : ps.length ≤ fuel) :
    fetch_csgo_inventory maxR (envOfPages ps) fuel =
      InvResult.ok ((ps.map InvPage.assets).flatten) ps.headI.descriptions := by
  have h := fetchInvLoop_pagesWF maxR hR ps fuel ⟨[], [], true, none⟩ hwf hfuel
  simpa [fetch_csgo_inventory] using h

/-- First witness page for C5. -/
def pW1 : InvPage := ⟨[1, 2], [7], 1, some "c", false⟩

/-- Second (final) witness page for C5. -/
def pW2 : InvPage := ⟨[3], [8], 0, none, false⟩

/-- Witness for fetchInv_pagination: two pages, the second final; the
assets concatenate in order and the first page's descriptions are kept. -/
theorem fetchInv_pagination_witness :
    fetch_csgo_inventory 5 (envOfPages [pW1, pW2]) 2 =
      InvResult.ok (([pW1, pW2].map InvPage.assets).flatten)
        ([pW1, pW2].headI.descriptions) :=
  fetchInv_pagination 5 (by omega) [pW1, pW2] 2 (by decide) (by decide)

end InvChecker
